import Mathlib

/-!
Verification development for the MozaikLite repository
(src/framework/interfaces.py and src/mozaik/analysis/analysis_data_structures.py).

The Python code is shallowly embedded: parameter trees, the visual-stimulus
frame-stream state machine, and the analysis data structures become Lean
structures and executable functions; Python exceptions become `Except` results.
-/

namespace Mozaik

/-! ## Parameter trees (interfaces.py, MozaikLiteParametrizeObject) -/

/-- A declared parameter tree: the values of a `required_parameters`
ParameterSet are either a nested ParameterSet or a Python type
(`int`, `float`, ...), here named by a string. -/
inductive DeclTree where
  | typ (t : String)
  | pset (entries : List (String × DeclTree))

/-- A supplied parameter tree: values are either a nested ParameterSet or a
plain Python value, abstracted to its runtime type name (`isinstance` is
modelled as equality of type names; a ParameterSet value is never an instance
of a declared leaf type). -/
inductive PyVal where
  | prim (t : String)
  | pset (entries : List (String × PyVal))

/-- Association-list lookup: Python `d[k]` / `dict.get`, first binding wins. -/
def alookup {κ α : Type} [DecidableEq κ] : List (κ × α) → κ → Option α
  | [], _ => none
  | (k', v) :: rest, k => if k' = k then some v else alookup rest k

/-- `set(a) == set(b)` on key lists. -/
def keysEq (a b : List String) : Bool :=
  a.all (fun k => b.contains k) && b.all (fun k => a.contains k)

/-- The two failure modes of `walk` in `check_parameters`: `raise KeyError`
on a key-set difference, `AssertionError` on a type mismatch. -/
inductive WalkErr where
  | keyErr
  | assertErr
deriving Repr, DecidableEq

mutual

/-- Embedding of the inner `walk(tP, P)` of
`MozaikLiteParametrizeObject.check_parameters` (interfaces.py lines 92-100),
combined with the per-item checks of its loop body: a declared nested
ParameterSet requires a supplied ParameterSet (else the `isinstance`
assertion fails) and recurses; a declared leaf type requires a supplied
value that is an instance of it. -/
def walk : DeclTree → PyVal → Except WalkErr Unit
  | .typ t, .prim t' => if t' = t then .ok () else .error .assertErr
  | .typ _, .pset _ => .error .assertErr
  | .pset _, .prim _ => .error .assertErr
  | .pset tE, .pset pE =>
      if keysEq (tE.map Prod.fst) (pE.map Prod.fst) then walkItems tE pE
      else .error .keyErr
termination_by t _ => sizeOf t

/-- The `for k,v in tP.items()` loop of `walk`: look up `P[k]`
(a missing key raises KeyError, unreachable after the key-set check)
and check the pair. -/
def walkItems : List (String × DeclTree) → List (String × PyVal) → Except WalkErr Unit
  | [], _ => .ok ()
  | (k, v) :: rest, pE =>
      match alookup pE k with
      | none => .error .keyErr
      | some pv =>
          match walk v pv with
          | .ok _ => walkItems rest pE
          | .error e => .error e
termination_by l _ => sizeOf l

end

/-- Python `dict.update`: keys already in `d` keep their position but take
the value from `e`; keys only in `e` are appended in `e`'s order. -/
def dictUpdate (d e : List (String × DeclTree)) : List (String × DeclTree) :=
  d.map (fun kv => (kv.1, match alookup e kv.1 with
                          | some v => v
                          | none => kv.2))
  ++ e.filter (fun kv => !((d.map Prod.fst).contains kv.1))

/-- The `new_param_dict` accumulation of `check_parameters`
(interfaces.py lines 103-108): fold `dict.update` over the
`required_parameters` dictionaries of the classes in MRO order
(most derived class first). -/
def mergeMRO (mro : List (List (String × DeclTree))) : List (String × DeclTree) :=
  mro.foldl dictUpdate []

/-- The observable outcome of `check_parameters`: normal return, `KeyError`,
or the generic `Exception` wrapping an `AssertionError`. -/
inductive CheckErr where
  | keyErr
  | exception
deriving Repr, DecidableEq

/-- Embedding of `MozaikLiteParametrizeObject.check_parameters`
(interfaces.py lines 91-112): merge the required parameters along the MRO,
walk the merged tree against the supplied one, and re-raise an
`AssertionError` as a generic `Exception`. -/
def check_parameters (mro : List (List (String × DeclTree)))
    (supplied : List (String × PyVal)) : Except CheckErr Unit :=
  match walk (.pset (mergeMRO mro)) (.pset supplied) with
  | .ok _ => .ok ()
  | .error .keyErr => .error .keyErr
  | .error .assertErr => .error .exception

mutual

/-- Spec-side matching predicate, following the claim's wording: at every
level the supplied key set equals the declared key set, every declared
nested ParameterSet is matched by a supplied ParameterSet (recursively),
and every declared leaf type is matched by a supplied instance of it. -/
def matchesTree : DeclTree → PyVal → Bool
  | .typ t, .prim t' => t' = t
  | .typ _, .pset _ => false
  | .pset _, .prim _ => false
  | .pset tE, .pset pE =>
      keysEq (tE.map Prod.fst) (pE.map Prod.fst) && matchesItems tE pE
termination_by t _ => sizeOf t

/-- Spec-side matching of the items of one level. -/
def matchesItems : List (String × DeclTree) → List (String × PyVal) → Bool
  | [], _ => true
  | (k, v) :: rest, pE =>
      (match alookup pE k with
       | none => false
       | some pv => matchesTree v pv) && matchesItems rest pE
termination_by l _ => sizeOf l

end

/-- `(t', p')` is a declared/supplied subtree pair that the recursive walk
can reach from `(t, p)`: equal to it, or reached through matching keys of
nested ParameterSets. -/
inductive Reach : DeclTree → PyVal → DeclTree → PyVal → Prop where
  | refl (t : DeclTree) (p : PyVal) : Reach t p t p
  | step {tE : List (String × DeclTree)} {pE : List (String × PyVal)}
      {k : String} {v : DeclTree} {pv : PyVal} {t' : DeclTree} {p' : PyVal}
      (hm : (k, v) ∈ tE) (hl : alookup pE k = some pv)
      (hr : Reach v pv t' p') : Reach (.pset tE) (.pset pE) t' p'

/-- A key-set difference at this pair of levels. -/
def isKeyMismatch : DeclTree → PyVal → Bool
  | .pset tE, .pset pE => !(keysEq (tE.map Prod.fst) (pE.map Prod.fst))
  | _, _ => false

/-- A type mismatch at this pair: declared leaf type not matched by an
instance, or a declared nested ParameterSet not matched by a ParameterSet. -/
def isTypeMismatch : DeclTree → PyVal → Bool
  | .typ t, .prim t' => !(t' = t)
  | .typ _, .pset _ => true
  | .pset _, .prim _ => true
  | .pset _, .pset _ => false

/-- Which mismatch kind corresponds to which walk error. -/
def mismatchFor : WalkErr → DeclTree → PyVal → Bool
  | .keyErr, t, p => isKeyMismatch t p
  | .assertErr, t, p => isTypeMismatch t p

/-! ## VisualStimulus (interfaces.py lines 18-82)

A frame is `(img, variables)`; pixels are modelled as integers (only order
comparisons matter for the luminance checks). The Python generator
`self._frames` becomes the pair of the deterministic frame sequence
(a list) and a position counter in the state. -/

/-- `img.min()` of a numpy frame. -/
def imgMin (l : List Int) : Int := l.foldl min (l.headD 0)

/-- `img.max()` of a numpy frame. -/
def imgMax (l : List Int) : Int := l.foldl max (l.headD 0)

/-- The mutable state of a `VisualStimulus` object (`varList` models the
Python attribute `variables`, whose name is reserved in Lean). -/
structure VSState where
  frame_duration : Int
  size_in_degrees : Int
  location : Int × Int
  max_luminance : Int
  input : Option Unit
  visible : Bool
  img : List Int
  varList : List Int
  pos : Nat
  zoomCache : List (Nat × List Int)
deriving Repr, DecidableEq

/-- Embedding of `VisualStimulus.update` (interfaces.py lines 48-59):
take the next frame from the generator; on `StopIteration` set
`visible = False`; otherwise assert the luminance bounds
(`img.min() >= 0 or img.min() == TRANSPARENT`, `img.max() <= max_luminance`);
in either non-raising case clear the zoom cache. The constant `TRANSPARENT`
comes from the `space` module, which is not part of the sources, so it is
passed as a parameter. -/
def update (transparent : Int) (fr : List (List Int × List Int)) (s : VSState) :
    Except String VSState :=
  match fr.get? s.pos with
  | none => .ok { s with visible := false, zoomCache := [] }
  | some (img, vars) =>
      if imgMin img ≥ 0 ∨ imgMin img = transparent then
        if imgMax img ≤ s.max_luminance then
          .ok { s with img := img, varList := vars, pos := s.pos + 1,
                       zoomCache := [] }
        else .error "frame maximum is greater than the maximum luminance"
      else .error "frame minimum is less than zero"

/-- Embedding of `VisualStimulus.__init__` (interfaces.py lines 25-37):
store the constructor arguments, start a fresh generator and consume the
first frame via `update`. Modelled from the spec: `VisualObject.__init__`
(module `space`, absent from the sources) initialises `visible` to `True`
for a stimulus placed in the visual field. -/
def mkVisualStimulus (transparent : Int) (fr : List (List Int × List Int))
    (frame_duration size_in_degrees : Int) (location : Int × Int)
    (max_luminance : Int) : Except String VSState :=
  update transparent fr
    { frame_duration := frame_duration
      size_in_degrees := size_in_degrees
      location := location
      max_luminance := max_luminance
      input := none
      visible := true
      img := []
      varList := []
      pos := 0
      zoomCache := [] }

/-- Embedding of `VisualStimulus.reset` (interfaces.py lines 61-67):
set `visible = True`, restart the generator, and consume the first frame. -/
def reset (transparent : Int) (fr : List (List Int × List Int)) (s : VSState) :
    Except String VSState :=
  update transparent fr { s with visible := true, pos := 0 }

/-- Embedding of `VisualStimulus.next_frame` (interfaces.py lines 79-82):
one `update`, then return `[self.img]`. -/
def next_frame (transparent : Int) (fr : List (List Int × List Int))
    (s : VSState) : Except String (VSState × List (List Int)) :=
  match update transparent fr s with
  | .ok s' => .ok (s', [s'.img])
  | .error e => .error e

/-- `n` successive calls of `update`. -/
def updateN (transparent : Int) (fr : List (List Int × List Int)) :
    Nat → VSState → Except String VSState
  | 0, s => .ok s
  | n + 1, s =>
      match update transparent fr s with
      | .ok s' => updateN transparent fr n s'
      | .error e => .error e

/-- The luminance-range condition that `update` asserts of a frame. -/
def validFrame (transparent max_luminance : Int) (f : List Int × List Int) :
    Prop :=
  (imgMin f.1 ≥ 0 ∨ imgMin f.1 = transparent) ∧ imgMax f.1 ≤ max_luminance

instance (transparent max_luminance : Int) (f : List Int × List Int) :
    Decidable (validFrame transparent max_luminance f) := by
  unfold validFrame; infer_instance

/-- The fields of the state that the frame stream drives (`visible`, the
current frame, the generator position), together with the luminance bound
the checks read. -/
def viewEq (a b : VSState) : Prop :=
  a.visible = b.visible ∧ a.img = b.img ∧ a.varList = b.varList ∧
  a.pos = b.pos ∧ a.max_luminance = b.max_luminance

/-- Relate two `update` outcomes: same error, or success with related
states. -/
def exRel (r : VSState → VSState → Prop) :
    Except String VSState → Except String VSState → Prop
  | .ok a, .ok b => r a b
  | .error e, .error e' => e = e'
  | _, _ => False


/-- Combined specification of `walk` at a declared/supplied pair. -/
def WalkSpec (t : DeclTree) (p : PyVal) : Prop :=
  (walk t p = .ok () ↔ matchesTree t p = true) ∧
  (∀ e, walk t p = .error e → ∃ t' p', Reach t p t' p' ∧ mismatchFor e t' p' = true)

/-- Combined specification of `walkItems` on the items of one level. -/
def ItemsSpec (l : List (String × DeclTree)) (pE : List (String × PyVal)) : Prop :=
  (walkItems l pE = .ok () ↔ matchesItems l pE = true) ∧
  (∀ e, walkItems l pE = .error e →
    (∃ k v pv t' p', (k, v) ∈ l ∧ alookup pE k = some pv ∧
        Reach v pv t' p' ∧ mismatchFor e t' p' = true) ∨
    (∃ k v, (k, v) ∈ l ∧ alookup pE k = none ∧ e = .keyErr))


/-- Spec-side description of the merged declaration for one key: the value
from the last class along the MRO (scanned most-derived first) that
declares it, i.e. the most remote ancestor's declaration. -/
def lastDecl : List (List (String × DeclTree)) → String → Option DeclTree
  | [], _ => none
  | d :: rest, k =>
      match lastDecl rest k with
      | some v => some v
      | none => alookup d k


/-! ## Analysis data structures (analysis_data_structures.py) -/

/-- One component of a stimulus id: a numeric parameter, or the placeholder
`'x'` that `to_dictonary_of_tc_parametrization` writes into the re-keyed id. -/
inductive StimParam where
  | val (v : ℚ)
  | x
deriving Repr, DecidableEq

/-- Modelled from the spec: `parse_stimuls_id` and `str` round-tripping of
stimulus ids (module `mozaik.stimuli.stimulus_generator`, absent from the
sources). A stimulus id is kept in parsed form: a name and the list of its
parameters; numeric parameters are rationals (`float` is modelled as ℚ). -/
structure StimId where
  name : String
  parameters : List StimParam
deriving Repr, DecidableEq

/-- `s.parameters[idx] = 'x'` re-keying of a parsed stimulus id. -/
def reKey (idx : Nat) (s : StimId) : StimId :=
  { s with parameters := s.parameters.set idx .x }

/-- `float(s.parameters[idx])` for a parsed stimulus id (defined inputs
carry a numeric parameter at `idx`). -/
def paramFloat (idx : Nat) (s : StimId) : ℚ :=
  match s.parameters.get? idx with
  | some (.val v) => v
  | _ => 0

/-- In-place dictionary value replacement: `d[k] = v` for an existing key. -/
def aupdate {κ α : Type} [DecidableEq κ] (d : List (κ × α)) (k : κ) (v : α) :
    List (κ × α) :=
  d.map (fun kv => if kv.1 = k then (kv.1, v) else kv)

/-- The keyword parameters (`**params` plus the declared `param.String` /
`param.List` parameters) that `Parameterized.__init__` can receive; a `none`
field falls back to the param default (`""` for strings, `[]` for tags). -/
structure ADSParams where
  identifier : Option String := none
  analysis_algorithm : Option String := none
  tags : Option (List String) := none
  sheet_name : Option String := none
  value_name : Option String := none
  x_axis_name : Option String := none
  y_axis_name : Option String := none
deriving Repr, DecidableEq

/-- The three common parameters every AnalysisDataStructure carries. -/
structure ADS where
  identifier : String
  analysis_algorithm : String
  tags : List String
deriving Repr, DecidableEq

/-- Embedding of `AnalysisDataStructure.__init__` (lines 58-59): the
`Parameterized` constructor sets each declared parameter from the keyword
arguments, or to its default (`tags` defaults to `[]`). -/
def mkAnalysisDataStructure (p : ADSParams) : ADS :=
  { identifier := p.identifier.getD ""
    analysis_algorithm := p.analysis_algorithm.getD ""
    tags := p.tags.getD [] }

/-- The state of a constructed `TuningCurve` (lines 93-99). -/
structure TuningCurveS where
  ads : ADS
  sheet_name : String
  values : List (List ℚ)
  stimuli_ids : List StimId
  parameter_index : Nat
  y_axis_name : String
  y_axis_units : String
deriving Repr, DecidableEq

/-- Embedding of `TuningCurve.__init__` (lines 93-99): pass
`identifier='TuningCurve'` to the parent constructor and store the inputs. -/
def TuningCurve_init (values : List (List ℚ)) (stimuli_ids : List StimId)
    (parameter_index : Nat) (y_axis_name y_axis_units : String)
    (p : ADSParams) : TuningCurveS :=
  { ads := mkAnalysisDataStructure { p with identifier := some "TuningCurve" }
    sheet_name := p.sheet_name.getD ""
    values := values
    stimuli_ids := stimuli_ids
    parameter_index := parameter_index
    y_axis_name := y_axis_name
    y_axis_units := y_axis_units }

/-- One iteration of the loop in `to_dictonary_of_tc_parametrization`
(lines 113-123): re-key the stimulus id with `'x'` at `parameter_index`,
and append the tuning-curve value and the float of the replaced parameter
to the entry of that key (creating it if absent). -/
def tcStep {α : Type} (idx : Nat) (d : List (StimId × (List α × List ℚ)))
    (p : α × StimId) : List (StimId × (List α × List ℚ)) :=
  match alookup d (reKey idx p.2) with
  | some (a, b) =>
      aupdate d (reKey idx p.2) (a ++ [p.1], b ++ [paramFloat idx p.2])
  | none => d ++ [(reKey idx p.2, ([p.1], [paramFloat idx p.2]))]

/-- Embedding of `TuningCurve.to_dictonary_of_tc_parametrization`
(lines 101-129). The final loop that wraps each `levels` list in
`numpy.array` preserves contents and order and is modelled as the
identity. -/
def to_dictonary_of_tc_parametrization (tc : TuningCurveS) :
    List (StimId × (List (List ℚ) × List ℚ)) :=
  (tc.values.zip tc.stimuli_ids).foldl (tcStep tc.parameter_index) []

/-- Spec-side description of one group: the zipped `(value, stimulus)`
pairs whose re-keyed id equals `key`, in their original order, unzipped
into the levels and the x-axis floats. -/
def grpChar {α : Type} (idx : Nat) (pairs : List (α × StimId)) (key : StimId) :
    Option (List α × List ℚ) :=
  let g := pairs.filter (fun vs => reKey idx vs.2 = key)
  if g.isEmpty then none
  else some (g.map Prod.fst, g.map (fun vs => paramFloat idx vs.2))

/-- The state of a constructed `CyclicTuningCurve` (lines 138-147). -/
structure CyclicTuningCurveS where
  tc : TuningCurveS
  period : ℚ
deriving Repr, DecidableEq

/-- Embedding of `CyclicTuningCurve.__init__` (lines 138-147): run the
parent constructor, overwrite the identifier, store the period, then raise
`ValueError` if any stimulus id has its `parameter_index` parameter outside
`[0, period)`. -/
def CyclicTuningCurve_init (period : ℚ) (values : List (List ℚ))
    (stimuli_ids : List StimId) (parameter_index : Nat)
    (y_axis_name y_axis_units : String) (p : ADSParams) :
    Except String CyclicTuningCurveS :=
  let base := TuningCurve_init values stimuli_ids parameter_index
    y_axis_name y_axis_units p
  let base2 := { base with ads := { base.ads with identifier := "CyclicTuningCurve" } }
  match stimuli_ids.find? (fun s =>
      paramFloat parameter_index s < 0 ∨ period ≤ paramFloat parameter_index s) with
  | some _ => .error "ValueError"
  | none => .ok { tc := base2, period := period }

/-- The state of a constructed `PerNeuronValue` (lines 173-177). -/
structure PerNeuronValueS where
  ads : ADS
  value_name : String
  sheet_name : String
  value_units : String
  period : Option ℚ
  values : List ℚ
deriving Repr, DecidableEq

/-- Embedding of `PerNeuronValue.__init__` (lines 173-177): pass
`identifier='PerNeuronValue'` and `**params` to the parent constructor and
store `value_units`, `period` and `values`. The positional `tags` argument
is faithful to the source in not being stored anywhere: it is absent from
the `**params` forwarded to `Parameterized`, so the object keeps the
`tags` default unless `tags` is (impossibly) also inside `**params`. -/
def PerNeuronValue_init (values : List ℚ) (value_units : String)
    (tags : List String) (period : Option ℚ) (p : ADSParams) :
    PerNeuronValueS :=
  { ads := mkAnalysisDataStructure { p with identifier := some "PerNeuronValue" }
    value_name := p.value_name.getD ""
    sheet_name := p.sheet_name.getD ""
    value_units := value_units
    period := period
    values := values }

/-- The state of a constructed `AnalysisDataStructure1D` (lines 206-209). -/
structure ADS1D where
  ads : ADS
  x_axis_name : String
  y_axis_name : String
  x_axis_units : String
  y_axis_units : String
deriving Repr, DecidableEq

/-- Embedding of `AnalysisDataStructure1D.__init__` (lines 206-209). -/
def AnalysisDataStructure1D_init (x_axis_units y_axis_units : String)
    (p : ADSParams) : ADS1D :=
  { ads := mkAnalysisDataStructure p
    x_axis_name := p.x_axis_name.getD ""
    y_axis_name := p.y_axis_name.getD ""
    x_axis_units := x_axis_units
    y_axis_units := y_axis_units }

/-- A Neo/NeuroTools AnalogSignal, abstracted to what the constructors
read: its units, the units of its sampling rate, and its samples. -/
structure AnalogSignal where
  units : String
  sampling_rate_units : String
  samples : List ℚ
deriving Repr, DecidableEq

/-- The state of a constructed `AnalogSignalList` (lines 227-230). -/
structure AnalogSignalListS where
  base : ADS1D
  sheet_name : String
  asl : List AnalogSignal
  indexes : List Nat
deriving Repr, DecidableEq

/-- Embedding of `AnalogSignalList.__init__` (lines 227-230). -/
def AnalogSignalList_init (asl : List AnalogSignal) (indexes : List Nat)
    (x_axis_units y_axis_units : String) (p : ADSParams) : AnalogSignalListS :=
  { base := AnalysisDataStructure1D_init x_axis_units y_axis_units
      { p with identifier := some "AnalogSignalList" }
    sheet_name := p.sheet_name.getD ""
    asl := asl
    indexes := indexes }

/-- The state of a constructed `ConductanceSignalList` (lines 251-256). -/
structure ConductanceSignalListS where
  base : ADS1D
  sheet_name : String
  e_con : List AnalogSignal
  i_con : List AnalogSignal
  indexes : List Nat
deriving Repr, DecidableEq

/-- Embedding of `ConductanceSignalList.__init__` (lines 251-256):
`e_con[0]` / `i_con[0]` raise IndexError on an empty list, the assert
compares the units, and the parent constructor receives the sampling-rate
units as x units, the conductance units as y units, fixed axis names, and
`identifier='ConductanceSignalList'`. -/
def ConductanceSignalList_init (e_con i_con : List AnalogSignal)
    (indexes : List Nat) (p : ADSParams) : Except String ConductanceSignalListS :=
  match e_con, i_con with
  | e0 :: _, i0 :: _ =>
      if e0.units = i0.units then
        .ok { base := AnalysisDataStructure1D_init e0.sampling_rate_units e0.units
                { p with x_axis_name := some "time", y_axis_name := some "conductance",
                         identifier := some "ConductanceSignalList" }
              sheet_name := p.sheet_name.getD ""
              e_con := e_con
              i_con := i_con
              indexes := indexes }
      else .error "AssertionError"
  | _, _ => .error "IndexError"


/-- A concrete stimulus state used to instantiate the stimulus theorems. -/
def vsW : VSState :=
  { frame_duration := 1, size_in_degrees := 1, location := (0, 0),
    max_luminance := 10, input := none, visible := true, img := [1],
    varList := [0], pos := 0, zoomCache := [] }

/-- A concrete two-frame sequence within luminance 10. -/
def frW : List (List Int × List Int) := [([0, 5], [1]), ([1], [0])]

/-- The state after constructing a stimulus over `frW`. -/
def vsW1 : VSState :=
  { frame_duration := 1, size_in_degrees := 1, location := (0, 0),
    max_luminance := 10, input := none, visible := true, img := [0, 5],
    varList := [1], pos := 1, zoomCache := [] }

/-- A concrete parsed stimulus id with one numeric parameter. -/
def stimW : StimId := { name := "fullfield", parameters := [.val 1] }

/-- A concrete tuning curve over `stimW`. -/
def tcW : TuningCurveS :=
  { ads := { identifier := "TuningCurve", analysis_algorithm := "", tags := [] }
    sheet_name := "V1"
    values := [[1]]
    stimuli_ids := [stimW]
    parameter_index := 0
    y_axis_name := "firing rate"
    y_axis_units := "Hz" }

/-! ## Theorems -/


theorem alookup_none_iff {α : Type} (d : List (String × α)) (k : String) :
    alookup d k = none ↔ ((d.map Prod.fst).contains k = false) := by
  induction d with
  | nil => simp [alookup]
  | cons kv rest ih =>
      obtain ⟨k', v⟩ := kv
      by_cases h : k' = k
      · subst h; simp [alookup]
      · simp [alookup, h, ih, Ne.symm h]

theorem alookup_isSome_of_contains {α : Type} (d : List (String × α)) (k : String)
    (h : (d.map Prod.fst).contains k = true) : ∃ v, alookup d k = some v := by
  rcases he : alookup d k with _ | v
  · rw [alookup_none_iff] at he; rw [he] at h; cases h
  · exact ⟨v, rfl⟩

theorem walk_spec (t : DeclTree) (p : PyVal) : WalkSpec t p := by
  refine walk.induct WalkSpec ItemsSpec ?_ ?_ ?_ ?_ ?_ ?_ ?_ ?_ ?_ ?_ t p
  · -- typ t, prim t (equal)
    intro t'
    constructor
    · simp [walk, matchesTree]
    · intro e he; simp [walk] at he
  · -- typ t, prim t' (different)
    intro ty t' hne
    constructor
    · simp [walk, matchesTree, hne]
    · intro e he
      simp [walk, hne] at he
      exact ⟨.typ ty, .prim t', Reach.refl _ _, by simp [← he, mismatchFor, isTypeMismatch, hne]⟩
  · -- typ t, pset
    intro ty entries
    constructor
    · simp [walk, matchesTree]
    · intro e he
      simp [walk] at he
      exact ⟨.typ ty, .pset entries, Reach.refl _ _, by simp [← he, mismatchFor, isTypeMismatch]⟩
  · -- pset, prim
    intro entries ty
    constructor
    · simp [walk, matchesTree]
    · intro e he
      simp [walk] at he
      exact ⟨.pset entries, .prim ty, Reach.refl _ _, by simp [← he, mismatchFor, isTypeMismatch]⟩
  · -- pset/pset, keysEq true
    intro tE pE hkeys hitems
    obtain ⟨hok, herr⟩ := hitems
    constructor
    · simp [walk, matchesTree, hkeys, hok]
    · intro e he
      simp [walk, hkeys] at he
      rcases herr e he with ⟨k, v, pv, t', p', hm, hl, hr, hmm⟩ | ⟨k, v, hm, hl, _⟩
      · exact ⟨t', p', Reach.step hm hl hr, hmm⟩
      · exfalso
        have hcont : ((pE.map Prod.fst).contains k = true) := by
          have h1 : (tE.map Prod.fst).all (fun k => (pE.map Prod.fst).contains k) = true := by
            unfold keysEq at hkeys
            exact (Bool.and_eq_true _ _ |>.mp hkeys).1
          have hkm : k ∈ tE.map Prod.fst := List.mem_map_of_mem Prod.fst hm
          exact List.all_eq_true.mp h1 k hkm
        obtain ⟨w, hw⟩ := alookup_isSome_of_contains pE k hcont
        rw [hw] at hl; cases hl
  · -- pset/pset, keysEq false
    intro tE pE hkeys
    constructor
    · simp [walk, matchesTree, hkeys]
    · intro e he
      simp [walk, hkeys] at he
      refine ⟨.pset tE, .pset pE, Reach.refl _ _, ?_⟩
      simp [← he, mismatchFor, isKeyMismatch, hkeys]
  · -- items nil
    intro pE
    constructor
    · simp [walkItems, matchesItems]
    · intro e he; simp [walkItems] at he
  · -- items cons, lookup none
    intro k v rest pE hnone
    constructor
    · simp [walkItems, matchesItems, hnone]
    · intro e he
      simp [walkItems, hnone] at he
      exact Or.inr ⟨k, v, by simp, hnone, by simp [← he]⟩
  · -- items cons, lookup some, walk ok
    intro k v rest pE pv hsome a hok hspec1 hspec2
    obtain ⟨hok1, _⟩ := hspec1
    obtain ⟨hok2, herr2⟩ := hspec2
    have hmt : matchesTree v pv = true := hok1.mp (by cases a; exact hok)
    constructor
    · simp [walkItems, matchesItems, hsome, hok, hmt, hok2]
    · intro e he
      simp [walkItems, hsome, hok] at he
      rcases herr2 e he with ⟨k', v', pv', t', p', hm, hl, hr, hmm⟩ | ⟨k', v', hm, hl, hek⟩
      · exact Or.inl ⟨k', v', pv', t', p', List.mem_cons_of_mem _ hm, hl, hr, hmm⟩
      · exact Or.inr ⟨k', v', List.mem_cons_of_mem _ hm, hl, hek⟩
  · -- items cons, lookup some, walk error
    intro k v rest pE pv hsome e0 herr hspec1
    obtain ⟨hok1, herr1⟩ := hspec1
    have hmt : matchesTree v pv = false := by
      rcases hb : matchesTree v pv with _ | _
      · rfl
      · rw [hok1.mpr hb] at herr; cases herr
    constructor
    · constructor
      · intro h; simp [walkItems, hsome, herr] at h
      · intro h; simp [matchesItems, hsome, hmt] at h
    · intro e he
      have hee : e = e0 := by
        simp [walkItems, hsome, herr] at he
        exact he.symm
      subst hee
      rcases herr1 _ herr with ⟨t', p', hr, hmm⟩
      exact Or.inl ⟨k, v, pv, t', p', List.mem_cons_self _ _, hsome, hr, hmm⟩


/-- C1: `check_parameters` raises on mismatch and only on mismatch: it
returns normally iff the supplied tree matches the declared (merged) tree,
where matching is key-set equality at every level, recursive matching of
declared nested ParameterSets by supplied ParameterSets, and instance
matching of declared leaf types; a `KeyError` outcome indicates a reachable
key-set difference and an `Exception` outcome indicates a reachable type
mismatch. -/
theorem c1_check_parameters_ok_iff_match (mro : List (List (String × DeclTree)))
    (supplied : List (String × PyVal)) :
    (check_parameters mro supplied = .ok () ↔
      matchesTree (.pset (mergeMRO mro)) (.pset supplied) = true) ∧
    (check_parameters mro supplied = .error .keyErr →
      ∃ t' p', Reach (.pset (mergeMRO mro)) (.pset supplied) t' p' ∧
        isKeyMismatch t' p' = true) ∧
    (check_parameters mro supplied = .error .exception →
      ∃ t' p', Reach (.pset (mergeMRO mro)) (.pset supplied) t' p' ∧
        isTypeMismatch t' p' = true) := by
  obtain ⟨hok, herr⟩ := walk_spec (.pset (mergeMRO mro)) (.pset supplied)
  rcases hw : walk (.pset (mergeMRO mro)) (.pset supplied) with e | u
  · have hnok : matchesTree (.pset (mergeMRO mro)) (.pset supplied) = false := by
      rcases hb : matchesTree (.pset (mergeMRO mro)) (.pset supplied) with _ | _
      · rfl
      · rw [hok.mpr hb] at hw; cases hw
    cases e
    · refine ⟨?_, ?_, ?_⟩
      · simp [check_parameters, hw, hnok]
      · intro _
        exact herr .keyErr hw
      · intro h; simp [check_parameters, hw] at h
    · refine ⟨?_, ?_, ?_⟩
      · simp [check_parameters, hw, hnok]
      · intro h; simp [check_parameters, hw] at h
      · intro _
        exact herr .assertErr hw
  · cases u
    refine ⟨?_, ?_, ?_⟩
    · simp [check_parameters, hw, hok.mp hw]
    · intro h; simp [check_parameters, hw] at h
    · intro h; simp [check_parameters, hw] at h


theorem alookup_map_val {α β : Type} (d : List (String × α)) (f : String × α → β)
    (k : String) :
    alookup (d.map (fun kv => (kv.1, f kv))) k =
      (d.find? (fun kv => kv.1 = k)).map f := by
  induction d with
  | nil => simp [alookup]
  | cons kv rest ih =>
      by_cases h : kv.1 = k
      · simp [alookup, List.find?, h]
      · simp [alookup, List.find?, h, ih]

theorem alookup_filter_key {α : Type} (e : List (String × α)) (p : String → Bool)
    (k : String) :
    alookup (e.filter (fun kv => p kv.1)) k =
      if p k then alookup e k else none := by
  induction e with
  | nil => simp [alookup]
  | cons kv rest ih =>
      obtain ⟨k0, v0⟩ := kv
      by_cases hp : p k0
      · by_cases hk : k0 = k
        · subst hk; simp [List.filter, hp, alookup, ih]
        · simp [List.filter, hp, alookup, hk, ih]
      · by_cases hk : k0 = k
        · subst hk
          simp [List.filter, hp, alookup, ih]
        · simp [List.filter, hp, alookup, hk, ih]

theorem alookup_append_gen {κ α : Type} [DecidableEq κ]
    (a b : List (κ × α)) (k : κ) :
    alookup (a ++ b) k =
      match alookup a k with
      | some v => some v
      | none => alookup b k := by
  induction a with
  | nil => simp [alookup]
  | cons kv rest ih =>
      by_cases h : kv.1 = k
      · simp [alookup, h]
      · simp [alookup, h, ih]


theorem alookup_eq_find {α : Type} (d : List (String × α)) (k : String) :
    alookup d k = (d.find? (fun kv => kv.1 = k)).map Prod.snd := by
  induction d with
  | nil => simp [alookup]
  | cons kv rest ih =>
      by_cases h : kv.1 = k
      · simp [alookup, List.find?, h]
      · simp [alookup, List.find?, h, ih]

theorem alookup_dictUpdate (d e : List (String × DeclTree)) (k : String) :
    alookup (dictUpdate d e) k =
      match alookup d k with
      | some v => some (match alookup e k with
                        | some w => w
                        | none => v)
      | none => alookup e k := by
  unfold dictUpdate
  rw [alookup_append_gen, alookup_map_val]
  rcases hf : d.find? (fun kv => kv.1 = k) with _ | kv0
  · have hnone : alookup d k = none := by rw [alookup_eq_find, hf]; rfl
    have hcont : (d.map Prod.fst).contains k = false := (alookup_none_iff d k).mp hnone
    rw [hf, hnone]
    have hfk := alookup_filter_key e (fun x => !((d.map Prod.fst).contains x)) k
    simp only [Option.map_none']
    rw [hfk]
    have hb : (!(List.map Prod.fst d).contains k) = true := by rw [hcont]; rfl
    rw [hb]
    simp
  · have hk0 : kv0.1 = k := by
      have h1 := List.find?_some hf
      simpa using h1
    have hsome : alookup d k = some kv0.2 := by rw [alookup_eq_find, hf]; rfl
    rw [hf, hsome]
    simp [hk0]

theorem alookup_foldl_dictUpdate (mro : List (List (String × DeclTree))) :
    ∀ (init : List (String × DeclTree)) (k : String),
      alookup (mro.foldl dictUpdate init) k =
        match lastDecl mro k with
        | some v => some v
        | none => alookup init k := by
  induction mro with
  | nil => intro init k; simp [lastDecl]
  | cons d rest ih =>
      intro init k
      simp only [List.foldl_cons]
      rw [ih]
      rcases hld : lastDecl rest k with _ | v
      · rw [alookup_dictUpdate]
        simp only [lastDecl, hld]
        rcases hd : alookup init k with _ | w <;> rcases he : alookup d k with _ | u <;> simp
      · simp [lastDecl, hld]

/-- C8: the declared tree that `check_parameters` validates against is the
fold of `dict.update` over the `required_parameters` of the classes in MRO
order; since the dictionary is updated most-derived class first, a key
declared by several classes ends up with the declaration of the last class
updated, i.e. the ancestor's declaration overrides the subclass's. -/
theorem c8_merged_tree_ancestor_overrides
    (mro : List (List (String × DeclTree))) (supplied : List (String × PyVal))
    (k : String) (sub anc : List (String × DeclTree)) (vs va : DeclTree)
    (h1 : alookup sub k = some vs) (h2 : alookup anc k = some va) :
    (check_parameters mro supplied =
      match walk (.pset (mergeMRO mro)) (.pset supplied) with
      | .ok _ => .ok ()
      | .error .keyErr => .error .keyErr
      | .error .assertErr => .error .exception) ∧
    alookup (mergeMRO mro) k = lastDecl mro k ∧
    alookup (mergeMRO [sub, anc]) k = some va := by
  refine ⟨rfl, ?_, ?_⟩
  · rw [mergeMRO, alookup_foldl_dictUpdate]
    rcases hld : lastDecl mro k with _ | v
    · simp [alookup]
    · simp
  · rw [mergeMRO, alookup_foldl_dictUpdate]
    simp [lastDecl, h2]


/-- C2: update succeeds on a yielded frame iff the frame respects the
luminance range, and the same check already applies to the first frame
consumed by the constructor. -/
theorem c2_update_validates_luminance (transparent : Int)
    (fr : List (List Int × List Int)) :
    (∀ (s : VSState) (img vars : List Int),
      fr.get? s.pos = some (img, vars) →
      ((∃ s', update transparent fr s = .ok s') ↔
        ((imgMin img ≥ 0 ∨ imgMin img = transparent) ∧
          imgMax img ≤ s.max_luminance))) ∧
    (∀ (fd sd : Int) (loc : Int × Int) (ml : Int) (img vars : List Int),
      fr.get? 0 = some (img, vars) →
      ((∃ s', mkVisualStimulus transparent fr fd sd loc ml = .ok s') ↔
        ((imgMin img ≥ 0 ∨ imgMin img = transparent) ∧ imgMax img ≤ ml))) := by
  have hmain : ∀ (s : VSState) (img vars : List Int),
      fr.get? s.pos = some (img, vars) →
      ((∃ s', update transparent fr s = .ok s') ↔
        ((imgMin img ≥ 0 ∨ imgMin img = transparent) ∧
          imgMax img ≤ s.max_luminance)) := by
    intro s img vars h
    unfold update
    rw [h]
    by_cases h1 : imgMin img ≥ 0 ∨ imgMin img = transparent
    · by_cases h2 : imgMax img ≤ s.max_luminance
      · simp [h1, h2]
      · simp [h1, h2]
    · simp [h1]
  refine ⟨hmain, ?_⟩
  intro fd sd loc ml img vars h
  exact hmain _ img vars h

/-- C9: on generator exhaustion `update` catches StopIteration, returns
normally with `visible = False`, a cleared zoom cache, and every other
field (including the current frame) unchanged. -/
theorem c9_update_exhausted_keeps_frame (transparent : Int)
    (fr : List (List Int × List Int)) (s : VSState)
    (h : fr.get? s.pos = none) :
    update transparent fr s = .ok { s with visible := false, zoomCache := [] } := by
  unfold update
  rw [h]

theorem updateN_replay (transparent ml : Int) (fr : List (List Int × List Int)) :
    ∀ (n : Nat) (s : VSState), s.max_luminance = ml →
      (∀ i, s.pos ≤ i → i < s.pos + n →
        ∃ f, fr.get? i = some f ∧ validFrame transparent ml f) →
      fr.get? (s.pos - 1) = some (s.img, s.varList) →
      ∃ s', updateN transparent fr n s = .ok s' ∧ s'.pos = s.pos + n ∧
        s'.max_luminance = ml ∧
        fr.get? (s'.pos - 1) = some (s'.img, s'.varList) := by
  intro n
  induction n with
  | zero =>
      intro s hml _ hcur
      exact ⟨s, rfl, by omega, hml, hcur⟩
  | succ n ih =>
      intro s hml hall hcur
      obtain ⟨f, hf, hvf⟩ := hall s.pos (le_refl _) (by omega)
      obtain ⟨img, vars⟩ := f
      obtain ⟨hv1, hv2⟩ := hvf
      have hstep : update transparent fr s =
          .ok { s with img := img, varList := vars, pos := s.pos + 1,
                       zoomCache := [] } := by
        unfold update
        rw [hf]
        simp only [hv1, if_true]
        rw [hml]
        simp [hv2]
      have hml' : ({ s with img := img, varList := vars, pos := s.pos + 1,
                            zoomCache := [] } : VSState).max_luminance = ml := hml
      obtain ⟨s', hrun, hpos, hml2, hcur2⟩ :=
        ih { s with img := img, varList := vars, pos := s.pos + 1,
                    zoomCache := [] } hml'
          (by intro i h1 h2; exact hall i (by simp at h1; omega) (by simp at h2 ⊢; omega))
          (by simpa using hf)
      refine ⟨s', ?_, by simp at hpos; omega, hml2, hcur2⟩
      unfold updateN
      rw [hstep]
      exact hrun

/-- C6: the constructor consumes exactly the first frame, each `update`
consumes exactly one more (the position counter advances by one), so after
`n` updates the exposed frame is the `(n+1)`-th yielded one; `next_frame`
is a single `update` returning `[self.img]`. -/
theorem c6_lazy_frame_consumption (transparent : Int)
    (fr : List (List Int × List Int)) (fd sd : Int) (loc : Int × Int)
    (ml : Int) (n : Nat) (s0 : VSState)
    (hall : ∀ i, i ≤ n → ∃ f, fr.get? i = some f ∧ validFrame transparent ml f)
    (h0 : mkVisualStimulus transparent fr fd sd loc ml = .ok s0) :
    (s0.pos = 1 ∧ fr.get? 0 = some (s0.img, s0.varList)) ∧
    (∃ s, updateN transparent fr n s0 = .ok s ∧ s.pos = n + 1 ∧
      fr.get? n = some (s.img, s.varList)) ∧
    (∀ s', next_frame transparent fr s' =
      match update transparent fr s' with
      | .ok s'' => .ok (s'', [s''.img])
      | .error e => .error e) := by
  obtain ⟨f0, hf0, hvf0⟩ := hall 0 (Nat.zero_le n)
  obtain ⟨img0, vars0⟩ := f0
  obtain ⟨hv1, hv2⟩ := hvf0
  have hinit : mkVisualStimulus transparent fr fd sd loc ml =
      .ok { frame_duration := fd, size_in_degrees := sd, location := loc,
            max_luminance := ml, input := none, visible := true,
            img := img0, varList := vars0, pos := 1, zoomCache := [] } := by
    unfold mkVisualStimulus update
    simp only [hf0]
    simp [hv1, hv2]
  rw [hinit] at h0
  have hs0 : s0 = { frame_duration := fd, size_in_degrees := sd, location := loc,
                    max_luminance := ml, input := none, visible := true,
                    img := img0, varList := vars0, pos := 1, zoomCache := [] } := by
    cases h0; rfl
  subst hs0
  refine ⟨⟨rfl, by simpa using hf0⟩, ?_, fun s' => rfl⟩
  obtain ⟨s, hrun, hpos, _, hcur⟩ :=
    updateN_replay transparent ml fr n
      { frame_duration := fd, size_in_degrees := sd, location := loc,
        max_luminance := ml, input := none, visible := true,
        img := img0, varList := vars0, pos := 1, zoomCache := [] }
      rfl
      (by intro i h1 h2
          simp at h1 h2
          exact hall i (by omega))
      (by simpa using hf0)
  refine ⟨s, hrun, by simp at hpos; omega, ?_⟩
  have : s.pos - 1 = n := by simp at hpos; omega
  rw [← this]
  exact hcur


theorem update_viewEq (transparent : Int) (fr : List (List Int × List Int))
    (a b : VSState) (h : viewEq a b) :
    exRel viewEq (update transparent fr a) (update transparent fr b) := by
  obtain ⟨hv, hi, hva, hp, hm⟩ := h
  unfold update
  rw [hp, hm]
  cases hfr : fr.get? b.pos with
  | none => simp [exRel, viewEq, hv, hi, hva, hp, hm]
  | some f =>
      obtain ⟨img, vars⟩ := f
      by_cases h1 : imgMin img ≥ 0 ∨ imgMin img = transparent
      · by_cases h2 : imgMax img ≤ b.max_luminance
        · simp [h1, h2, exRel, viewEq, hv, hp, hm]
        · simp [h1, h2, exRel]
      · simp [h1, exRel]

theorem updateN_viewEq (transparent : Int) (fr : List (List Int × List Int)) :
    ∀ (n : Nat) (a b : VSState), viewEq a b →
      exRel viewEq (updateN transparent fr n a) (updateN transparent fr n b) := by
  intro n
  induction n with
  | zero => intro a b h; exact h
  | succ n ih =>
      intro a b h
      have hstep := update_viewEq transparent fr a b h
      unfold updateN
      cases ha : update transparent fr a with
      | ok a' =>
          cases hb : update transparent fr b with
          | ok b' =>
              rw [ha, hb] at hstep
              exact ih a' b' hstep
          | error e => rw [ha, hb] at hstep; cases hstep
      | error e =>
          cases hb : update transparent fr b with
          | ok b' => rw [ha, hb] at hstep; cases hstep
          | error e' =>
              rw [ha, hb] at hstep
              exact hstep

/-- C4: with a deterministic frame sequence, `reset` restores the
construction-time state: `visible` is `True`, the generator is restarted at
position 0, the current frame is the first yielded frame again, and from
then on `update` replays exactly the sequence seen after construction. -/
theorem c4_reset_restarts_stream (transparent : Int)
    (fr : List (List Int × List Int)) (fd sd : Int) (loc : Int × Int)
    (ml : Int) (s : VSState) (img0 vars0 : List Int)
    (hml : s.max_luminance = ml) (h0 : fr.get? 0 = some (img0, vars0)) :
    exRel viewEq (reset transparent fr s)
      (mkVisualStimulus transparent fr fd sd loc ml) ∧
    (∀ s1 s2, reset transparent fr s = .ok s1 →
      mkVisualStimulus transparent fr fd sd loc ml = .ok s2 →
      ∀ n, exRel viewEq (updateN transparent fr n s1)
        (updateN transparent fr n s2)) ∧
    (∀ s1, reset transparent fr s = .ok s1 →
      s1.visible = true ∧ s1.pos = 1 ∧ s1.img = img0 ∧ s1.varList = vars0) := by
  have h0' : fr[0]? = some (img0, vars0) := by simpa using h0
  by_cases hv1 : imgMin img0 ≥ 0 ∨ imgMin img0 = transparent
  · by_cases hv2 : imgMax img0 ≤ ml
    · have hr : reset transparent fr s =
          .ok { s with visible := true, img := img0, varList := vars0,
                       pos := 1, zoomCache := [] } := by
        unfold reset update
        simp [h0', hv1, hml, hv2]
      have hm2 : mkVisualStimulus transparent fr fd sd loc ml =
          .ok { frame_duration := fd, size_in_degrees := sd, location := loc,
                max_luminance := ml, input := none, visible := true,
                img := img0, varList := vars0, pos := 1, zoomCache := [] } := by
        unfold mkVisualStimulus update
        simp [h0', hv1, hv2]
      refine ⟨?_, ?_, ?_⟩
      · rw [hr, hm2]
        simp [exRel, viewEq, hml]
      · intro s1 s2 h1 h2 n
        rw [hr] at h1
        rw [hm2] at h2
        cases h1
        cases h2
        exact updateN_viewEq transparent fr n _ _ (by simp [viewEq, hml])
      · intro s1 h1
        rw [hr] at h1
        cases h1
        simp
    · have hr : reset transparent fr s =
          .error "frame maximum is greater than the maximum luminance" := by
        unfold reset update
        simp [h0', hv1, hml, hv2]
      have hm2 : mkVisualStimulus transparent fr fd sd loc ml =
          .error "frame maximum is greater than the maximum luminance" := by
        unfold mkVisualStimulus update
        simp [h0', hv1, hv2]
      refine ⟨?_, ?_, ?_⟩
      · rw [hr, hm2]
        rfl
      · intro s1 s2 h1
        rw [hr] at h1
        cases h1
      · intro s1 h1
        rw [hr] at h1
        cases h1
  · have hr : reset transparent fr s =
        .error "frame minimum is less than zero" := by
      unfold reset update
      simp [h0', hv1]
    have hm2 : mkVisualStimulus transparent fr fd sd loc ml =
        .error "frame minimum is less than zero" := by
      unfold mkVisualStimulus update
      simp [h0', hv1]
    refine ⟨?_, ?_, ?_⟩
    · rw [hr, hm2]
      rfl
    · intro s1 s2 h1
      rw [hr] at h1
      cases h1
    · intro s1 h1
      rw [hr] at h1
      cases h1


/-- C5 (code bug): the `tags` constructor argument of `PerNeuronValue` is
accepted but never stored; the constructed object keeps whatever the
keyword parameters provide (the empty-list default when absent), so a
non-empty positional `tags` argument is silently dropped. -/
theorem c5_perneuronvalue_tags_dropped :
    (∀ (values : List ℚ) (vu : String) (tags : List String)
      (period : Option ℚ) (p : ADSParams),
      (PerNeuronValue_init values vu tags period p).ads.tags = p.tags.getD []) ∧
    (PerNeuronValue_init [1] "mV" ["mytag"] none {}).ads.tags = [] := by
  constructor
  · intro values vu tags period p
    rfl
  · rfl

/-- C7: every successfully constructed concrete analysis data structure
carries its class-specific identifier: `TuningCurve`, `CyclicTuningCurve`
(overwriting the parent's value), `PerNeuronValue`, `AnalogSignalList` and
`ConductanceSignalList`. -/
theorem c7_identifier_per_class :
    (∀ (values : List (List ℚ)) (ids : List StimId) (idx : Nat)
      (yan yau : String) (p : ADSParams),
      (TuningCurve_init values ids idx yan yau p).ads.identifier = "TuningCurve") ∧
    (∀ (period : ℚ) (values : List (List ℚ)) (ids : List StimId) (idx : Nat)
      (yan yau : String) (p : ADSParams) (c : CyclicTuningCurveS),
      CyclicTuningCurve_init period values ids idx yan yau p = .ok c →
      c.tc.ads.identifier = "CyclicTuningCurve") ∧
    (∀ (values : List ℚ) (vu : String) (tags : List String)
      (period : Option ℚ) (p : ADSParams),
      (PerNeuronValue_init values vu tags period p).ads.identifier = "PerNeuronValue") ∧
    (∀ (asl : List AnalogSignal) (indexes : List Nat) (xau yau : String)
      (p : ADSParams),
      (AnalogSignalList_init asl indexes xau yau p).base.ads.identifier = "AnalogSignalList") ∧
    (∀ (e_con i_con : List AnalogSignal) (indexes : List Nat) (p : ADSParams)
      (c : ConductanceSignalListS),
      ConductanceSignalList_init e_con i_con indexes p = .ok c →
      c.base.ads.identifier = "ConductanceSignalList") := by
  refine ⟨fun _ _ _ _ _ _ => rfl, ?_, fun _ _ _ _ _ => rfl, fun _ _ _ _ _ => rfl, ?_⟩
  · intro period values ids idx yan yau p c h
    unfold CyclicTuningCurve_init at h
    rcases hf : ids.find? (fun s =>
        paramFloat idx s < 0 ∨ period ≤ paramFloat idx s) with _ | s0
    · rw [hf] at h
      cases h
      rfl
    · rw [hf] at h
      cases h
  · intro e_con i_con indexes p c h
    unfold ConductanceSignalList_init at h
    match e_con, i_con with
    | [], _ => cases h
    | e0 :: es, [] => cases h
    | e0 :: es, i0 :: is_ =>
        by_cases hu : e0.units = i0.units
        · simp only [hu, if_true] at h
          cases h
          rfl
        · simp only [hu, if_false] at h
          cases h

/-- C10: the `CyclicTuningCurve` constructor raises `ValueError` iff some
stimulus id has its `parameter_index` parameter outside `[0, period)`
(for stimulus ids whose parameter there is numeric, as `float` requires);
consequently every successfully constructed instance has all these
parameters inside `[0, period)`. -/
theorem c10_cyclic_range_check (period : ℚ) (values : List (List ℚ))
    (ids : List StimId) (idx : Nat) (yan yau : String) (p : ADSParams)
    (hwf : ∀ s ∈ ids, ∃ v : ℚ, s.parameters.get? idx = some (.val v)) :
    ((∃ e, CyclicTuningCurve_init period values ids idx yan yau p = .error e) ↔
      ∃ s ∈ ids, paramFloat idx s < 0 ∨ period ≤ paramFloat idx s) ∧
    (∀ c, CyclicTuningCurve_init period values ids idx yan yau p = .ok c →
      ∀ s ∈ ids, 0 ≤ paramFloat idx s ∧ paramFloat idx s < period) := by
  constructor
  · constructor
    · intro ⟨e, he⟩
      unfold CyclicTuningCurve_init at he
      rcases hf : ids.find? (fun s =>
          paramFloat idx s < 0 ∨ period ≤ paramFloat idx s) with _ | s0
      · rw [hf] at he; cases he
      · have hmem := List.mem_of_find?_eq_some hf
        have hprop := List.find?_some hf
        refine ⟨s0, hmem, ?_⟩
        simpa using hprop
    · intro ⟨s, hmem, hout⟩
      unfold CyclicTuningCurve_init
      rcases hf : ids.find? (fun s =>
          paramFloat idx s < 0 ∨ period ≤ paramFloat idx s) with _ | s0
      · exfalso
        have := List.find?_eq_none.mp hf s hmem
        simp at this
        rcases hout with h | h
        · exact absurd h (by simpa using this.1)
        · exact absurd h (by simpa using this.2)
      · exact ⟨"ValueError", rfl⟩
  · intro c hc s hmem
    unfold CyclicTuningCurve_init at hc
    rcases hf : ids.find? (fun s =>
        paramFloat idx s < 0 ∨ period ≤ paramFloat idx s) with _ | s0
    · have := List.find?_eq_none.mp hf s hmem
      simp at this
      constructor
      · linarith [this.1]
      · exact this.2
    · rw [hf] at hc
      cases hc


theorem alookup_aupdate_self {κ α : Type} [DecidableEq κ]
    (d : List (κ × α)) (k : κ) (v w : α) (h : alookup d k = some w) :
    alookup (aupdate d k v) k = some v := by
  induction d with
  | nil => simp [alookup] at h
  | cons kv rest ih =>
      unfold aupdate
      rw [List.map_cons]
      by_cases hk : kv.1 = k
      · rw [if_pos hk]
        simp [alookup, hk]
      · rw [if_neg hk]
        rw [alookup] at h ⊢
        rw [if_neg hk] at h ⊢
        exact ih h

theorem alookup_aupdate_ne {κ α : Type} [DecidableEq κ]
    (d : List (κ × α)) (k : κ) (v : α) (k' : κ) (h : k' ≠ k) :
    alookup (aupdate d k v) k' = alookup d k' := by
  induction d with
  | nil => simp [alookup, aupdate]
  | cons kv rest ih =>
      unfold aupdate
      rw [List.map_cons]
      by_cases hk : kv.1 = k
      · have hne : ¬ kv.1 = k' := by rw [hk]; exact fun he => h he.symm
        rw [if_pos hk]
        rw [alookup, alookup, if_neg hne, if_neg hne]
        exact ih
      · rw [if_neg hk]
        by_cases hk' : kv.1 = k'
        · rw [alookup, alookup, if_pos hk', if_pos hk']
        · rw [alookup, alookup, if_neg hk', if_neg hk']
          exact ih

theorem tcStep_char {α : Type} (idx : Nat) (done : List (α × StimId))
    (d : List (StimId × (List α × List ℚ)))
    (hinv : ∀ key, alookup d key = grpChar idx done key) (p : α × StimId) :
    ∀ key, alookup (tcStep idx d p) key = grpChar idx (done ++ [p]) key := by
  have hstep_none : alookup d (reKey idx p.2) = none →
      tcStep idx d p = d ++ [(reKey idx p.2, ([p.1], [paramFloat idx p.2]))] := by
    intro hd; unfold tcStep; rw [hd]
  have hstep_some : ∀ a b, alookup d (reKey idx p.2) = some (a, b) →
      tcStep idx d p =
        aupdate d (reKey idx p.2) (a ++ [p.1], b ++ [paramFloat idx p.2]) := by
    intro a b hd; unfold tcStep; rw [hd]
  intro key
  by_cases hk : key = reKey idx p.2
  · subst hk
    rcases hd : alookup d (reKey idx p.2) with _ | ⟨a, b⟩
    · have h2 : grpChar idx done (reKey idx p.2) = none := by rw [← hinv, hd]
      have hemp : (done.filter
          (fun vs => reKey idx vs.2 = reKey idx p.2)).isEmpty = true := by
        by_cases he : (done.filter
            (fun vs => reKey idx vs.2 = reKey idx p.2)).isEmpty = true
        · exact he
        · simp only [grpChar, he, if_false] at h2
          cases h2
      have hfd : done.filter
          (fun vs => reKey idx vs.2 = reKey idx p.2) = [] :=
        List.isEmpty_iff.mp hemp
      rw [hstep_none hd, alookup_append_gen, hd]
      simp only [grpChar, List.filter_append, hfd]
      simp [alookup]
    · have h2 : grpChar idx done (reKey idx p.2) = some (a, b) := by
        rw [← hinv, hd]
      by_cases he : (done.filter
          (fun vs => reKey idx vs.2 = reKey idx p.2)).isEmpty = true
      · simp only [grpChar, he, if_true] at h2
        cases h2
      · rw [hstep_some a b hd]
        rw [alookup_aupdate_self d _ _ _ hd]
        simp only [grpChar, he, if_false, Option.some.injEq, Prod.mk.injEq] at h2
        obtain ⟨ha, hb⟩ := h2
        simp only [grpChar, List.filter_append]
        have hne2 : ((done.filter
            (fun vs => reKey idx vs.2 = reKey idx p.2)) ++
            ([p].filter (fun vs => reKey idx vs.2 = reKey idx p.2))).isEmpty = false := by
          rcases hfe : done.filter (fun vs => reKey idx vs.2 = reKey idx p.2) with _ | ⟨q, rest⟩
          · rw [hfe] at he; simp at he
          · simp
        rw [hne2]
        simp only [Bool.false_eq_true, if_false]
        simp
  · have hk2 : ¬ reKey idx p.2 = key := fun h2 => hk h2.symm
    have hfp : [p].filter (fun vs => reKey idx vs.2 = key) = [] := by
      simp [List.filter, hk2]
    rcases hd : alookup d (reKey idx p.2) with _ | ⟨a, b⟩
    · rw [hstep_none hd, alookup_append_gen]
      have hsingle : alookup [(reKey idx p.2, ([p.1], [paramFloat idx p.2]))] key = none := by
        simp [alookup, hk2]
      rw [hsingle, hinv key]
      simp only [grpChar, List.filter_append, hfp, List.append_nil]
      by_cases hemp2 : (done.filter (fun vs => reKey idx vs.2 = key)).isEmpty = true
      · simp [hemp2]
      · simp [hemp2]
    · rw [hstep_some a b hd]
      rw [alookup_aupdate_ne d _ _ _ hk, hinv key]
      simp only [grpChar, List.filter_append, hfp, List.append_nil]

theorem tcFold_char {α : Type} (idx : Nat) :
    ∀ (pairs done : List (α × StimId)) (d : List (StimId × (List α × List ℚ))),
      (∀ key, alookup d key = grpChar idx done key) →
      ∀ key, alookup (pairs.foldl (tcStep idx) d) key =
        grpChar idx (done ++ pairs) key := by
  intro pairs
  induction pairs with
  | nil => intro done d hinv key; simpa using hinv key
  | cons p rest ih =>
      intro done d hinv key
      rw [List.foldl_cons]
      have hstep := tcStep_char idx done d hinv p
      have := ih (done ++ [p]) (tcStep idx d p) hstep key
      rw [this]
      simp

/-- C3: `to_dictonary_of_tc_parametrization` groups the zipped
`(value, stimulus)` pairs by the stimulus id with the `parameter_index`
component replaced by `'x'`: the entry of each such key holds exactly the
tuning-curve values and the floats of the replaced parameter of the pairs
that re-key to it, in their original zip order; keys with no pair have no
entry, so every pair lands in exactly one group. -/
theorem c3_tc_dictionary_groups (tc : TuningCurveS)
    (hwf : ∀ s ∈ tc.stimuli_ids, tc.parameter_index < s.parameters.length ∧
      ∃ v : ℚ, s.parameters.get? tc.parameter_index = some (.val v)) :
    ∀ key, alookup (to_dictonary_of_tc_parametrization tc) key =
      grpChar tc.parameter_index (tc.values.zip tc.stimuli_ids) key := by
  intro key
  unfold to_dictonary_of_tc_parametrization
  have := tcFold_char tc.parameter_index (tc.values.zip tc.stimuli_ids) [] []
    (by intro k; simp [alookup, grpChar]) key
  simpa using this

theorem c1_check_parameters_ok_iff_match_witness :
    check_parameters [[("a", DeclTree.typ "int")]] [("a", PyVal.prim "int")] =
      .ok () :=
  (c1_check_parameters_ok_iff_match [[("a", DeclTree.typ "int")]]
      [("a", PyVal.prim "int")]).1.mpr
    (by simp [matchesTree, matchesItems, keysEq, alookup, mergeMRO, dictUpdate])

theorem c2_update_validates_luminance_witness :
    (∃ s', update (-1) frW vsW = .ok s') ↔
      ((imgMin [0, 5] ≥ 0 ∨ imgMin [0, 5] = -1) ∧
        imgMax [0, 5] ≤ vsW.max_luminance) :=
  (c2_update_validates_luminance (-1) frW).1 vsW [0, 5] [1] rfl

theorem c3_tc_dictionary_groups_witness :
    alookup (to_dictonary_of_tc_parametrization tcW) (reKey 0 stimW) =
      grpChar 0 (tcW.values.zip tcW.stimuli_ids) (reKey 0 stimW) :=
  c3_tc_dictionary_groups tcW
    (by intro s hs
        rw [show tcW.stimuli_ids = [stimW] from rfl, List.mem_singleton] at hs
        subst hs
        exact ⟨by decide, 1, rfl⟩)
    (reKey 0 stimW)

theorem c4_reset_restarts_stream_witness :
    exRel viewEq (reset (-1) frW vsW)
      (mkVisualStimulus (-1) frW 1 1 (0, 0) 10) :=
  (c4_reset_restarts_stream (-1) frW 1 1 (0, 0) 10 vsW [0, 5] [1] rfl rfl).1

theorem c6_lazy_frame_consumption_witness :
    ∃ s, updateN (-1) frW 1 vsW1 = .ok s ∧ s.pos = 2 ∧
      frW.get? 1 = some (s.img, s.varList) :=
  (c6_lazy_frame_consumption (-1) frW 1 1 (0, 0) 10 1 vsW1
    (by intro i hi
        interval_cases i
        · exact ⟨([0, 5], [1]), rfl, by constructor <;> decide⟩
        · exact ⟨([1], [0]), rfl, by constructor <;> decide⟩)
    rfl).2.1

theorem c7_identifier_per_class_witness :
    (TuningCurve_init [] [] 0 "y" "u" {}).ads.identifier = "TuningCurve" :=
  c7_identifier_per_class.1 [] [] 0 "y" "u" {}

theorem c8_merged_tree_ancestor_overrides_witness :
    alookup (mergeMRO [[("a", DeclTree.typ "int")], [("a", DeclTree.typ "float")]])
      "a" = some (DeclTree.typ "float") :=
  (c8_merged_tree_ancestor_overrides
    [[("a", DeclTree.typ "int")], [("a", DeclTree.typ "float")]] []
    "a" [("a", DeclTree.typ "int")] [("a", DeclTree.typ "float")]
    (DeclTree.typ "int") (DeclTree.typ "float") rfl rfl).2.2

theorem c9_update_exhausted_keeps_frame_witness :
    update (-1) [] vsW = .ok { vsW with visible := false, zoomCache := [] } :=
  c9_update_exhausted_keeps_frame (-1) [] vsW rfl

theorem c10_cyclic_range_check_witness :
    ((∃ e, CyclicTuningCurve_init 2 [[1]] [stimW] 0 "y" "u" {} = .error e) ↔
      ∃ s ∈ [stimW], paramFloat 0 s < 0 ∨ 2 ≤ paramFloat 0 s) :=
  (c10_cyclic_range_check 2 [[1]] [stimW] 0 "y" "u" {}
    (by intro s hs
        rw [List.mem_singleton] at hs
        subst hs
        exact ⟨1, rfl⟩)).1


end Mozaik
